import Mathlib

/-!
# Verification of the history / cache / pagination / stats subsystem

Shallow embedding of the REST-client history subsystem implemented in
`src/Api.jsx` and `src/Api1.jsx`.  The browser-provided collaborators
(`localStorage` / `window.storage`, `JSON.parse`, `fetch`, `performance.now`)
are modelled as explicit parameters:

* the key-value store is a `List (String × String)` in enumeration order;
* `JSON.parse` of a stored record is an oracle `String → Option HistoryEntry`
  (`none` models a parse failure);
* ISO-8601 timestamps are modelled by their millisecond value (a `Nat`);
  `new Date(b.timestamp) - new Date(a.timestamp)` compares those values;
* `fetch` outcomes and clock readings are inputs of the request model.

JavaScript `Array.prototype.sort` is stable (ES2019), so it is modelled by
`List.insertionSort`, which is also stable: both place, for the total
preorder induced by the numeric comparator, tied elements in their
original order, and two stable sorts of the same preorder agree.
-/

namespace RestClient

/-- One persisted request/response record (the shape built in `sendRequest`
and `saveToHistory`).  The `timestamp` ISO string is modelled by its
millisecond value; `headers`/`body`/`response` are kept as raw strings. -/
structure HistoryEntry where
  id : Nat
  method : String
  url : String
  headers : String
  body : String
  response : String
  statusCode : Int
  duration : Nat
  timestamp : Nat
  deriving Repr, DecidableEq

/-- The local key-value store: `(key, value)` pairs in enumeration order
(the order `localStorage.key(i)` / `window.storage.list` reports). -/
abbrev Store := List (String × String)

/-- Model of JavaScript `key.startsWith(p)`. -/
def strHasPrefix (p s : String) : Bool :=
  s.toList.take p.length == p.toList

/-- `getRequestKeys` (`Api1.jsx` lines 43–52): every stored key that starts
with the reserved prefix `"request:"`, in enumeration order. -/
def getRequestKeys (store : Store) : List String :=
  (store.map Prod.fst).filter (fun k => strHasPrefix "request:" k)

/-- `localStorage.getItem` / `window.storage.get`: the value of the first
pair with the given key, if any. -/
def getItem (store : Store) (key : String) : Option String :=
  (store.find? (fun kv => kv.1 == key)).map Prod.snd

/-- JS sort comparator `(a, b) => new Date(b.timestamp) - new Date(a.timestamp)`:
`a` stays before `b` (comparator ≤ 0) iff `b.timestamp ≤ a.timestamp`. -/
def byTimestampDesc (a b : HistoryEntry) : Prop :=
  b.timestamp ≤ a.timestamp

instance : DecidableRel byTimestampDesc :=
  fun a b => Nat.decLe b.timestamp a.timestamp

instance : IsTotal HistoryEntry byTimestampDesc :=
  ⟨fun a b => Nat.le_total b.timestamp a.timestamp⟩

instance : IsTrans HistoryEntry byTimestampDesc :=
  ⟨fun _ _ _ hab hbc => Nat.le_trans hbc hab⟩

/-- `ITEMS_PER_PAGE = 20`. -/
def ITEMS_PER_PAGE : Nat := 20

/-- What one `loadHistory` call computes and caches:
`{ items, total, hasMore }` (`Api.jsx` lines 67–71). -/
structure PageResult where
  items : List HistoryEntry
  totalCount : Nat
  hasMore : Bool
  deriving Repr, DecidableEq

/-- The parse-and-sort phase of `loadHistory`: fetch every listed key,
parse each value (failures and absent values become `null` and are
filtered out), then sort by `timestamp` descending
(`Api.jsx` lines 43–56, `Api1.jsx` lines 107–119). -/
def sortedEntries (get : String → Option String)
    (parse : String → Option HistoryEntry) (keys : List String) :
    List HistoryEntry :=
  let historyData := keys.map (fun key => (get key).bind parse)
  List.insertionSort byTimestampDesc (historyData.filterMap id)

/-- The cache-miss body of `loadHistory(pageNum)`: sort, then
`startIndex = (pageNum-1)*ITEMS_PER_PAGE`, `endIndex = startIndex + ITEMS_PER_PAGE`,
`slice(startIndex, endIndex)`, `hasMore = endIndex < sorted.length`
(`Api.jsx` lines 54–64, `Api1.jsx` lines 117–125). -/
def loadHistoryPage (get : String → Option String)
    (parse : String → Option HistoryEntry) (keys : List String)
    (pageNum : Nat) : PageResult :=
  let sorted := sortedEntries get parse keys
  let startIndex := (pageNum - 1) * ITEMS_PER_PAGE
  let endIndex := startIndex + ITEMS_PER_PAGE
  { items := (sorted.drop startIndex).take ITEMS_PER_PAGE
    totalCount := sorted.length
    hasMore := decide (endIndex < sorted.length) }

/-- `loadHistory` over the `localStorage` model (`Api1.jsx` lines 87–144):
keys come from `getRequestKeys`, values from `getItem`; an empty key set
short-circuits to the empty result. -/
def loadHistoryLS (parse : String → Option HistoryEntry) (store : Store)
    (pageNum : Nat) : PageResult :=
  let keys := getRequestKeys store
  if keys.isEmpty then ⟨[], 0, false⟩
  else loadHistoryPage (getItem store) parse keys pageNum

/-- `localStorage.setItem` / `window.storage.set`: replace the value of an
existing key in place, otherwise append the new pair. -/
def setItem (store : Store) (key val : String) : Store :=
  match store with
  | [] => [(key, val)]
  | kv :: rest =>
    if kv.1 == key then (key, val) :: rest
    else kv :: setItem rest key val

/-- `localStorage.removeItem` / `window.storage.delete`. -/
def removeItem (store : Store) (key : String) : Store :=
  store.filter (fun kv => !(kv.1 == key))

/-- The store key written by `saveToHistory`: `` `request:${id}` ``. -/
def requestKey (id : Nat) : String :=
  "request:" ++ toString id

/-- Store effect of `saveToHistory` (`Api.jsx` lines 120–134,
`Api1.jsx` lines 175–190): write the serialized item under
`"request:" + timestamp`. -/
def saveStore (store : Store) (now : Nat) (serialized : String) : Store :=
  setItem store (requestKey now) serialized

/-- Store effect of `deleteHistoryItem` (`Api.jsx` lines 265–277,
`Api1.jsx` lines 307–320): remove the single key `"request:" + id`. -/
def deleteStore (store : Store) (id : Nat) : Store :=
  removeItem store (requestKey id)

/-- Store effect of `clearAllHistory` (`Api.jsx` lines 279–297,
`Api1.jsx` lines 322–337): delete every key returned by the
prefix listing, one by one. -/
def clearAllStore (store : Store) : Store :=
  (getRequestKeys store).foldl (fun s key => removeItem s key) store

/-! ## StatsAggregator (`Api1.jsx`) -/

/-- Result shape of `computeStats`. -/
structure Stats where
  total : Nat
  avgDuration : Nat
  methodStats : List (String × Nat)
  deriving Repr, DecidableEq

/-- One step of the `reduce` that builds `methodCounts`
(`acc[item.method] = (acc[item.method] || 0) + 1`): JS objects keep
string keys in insertion order, so the accumulator is an association
list in first-occurrence order. -/
def bumpMethod : List (String × Nat) → String → List (String × Nat)
  | [], m => [(m, 1)]
  | (k, c) :: rest, m =>
    if k == m then (k, c + 1) :: rest
    else (k, c) :: bumpMethod rest m

/-- `methodCounts` (`Api1.jsx` lines 31–34): per-method occurrence counts
in first-occurrence order, as produced by `Object.entries`. -/
def methodCounts (historyData : List HistoryEntry) : List (String × Nat) :=
  historyData.foldl (fun acc item => bumpMethod acc item.method) []

/-- `Math.round(sum / total)` on non-negative integers: round half up. -/
def jsRoundDiv (sum total : Nat) : Nat :=
  (2 * sum + total) / (2 * total)

/-- Comparator `(a, b) => b.count - a.count`: `a` stays before `b` iff
`b.count ≤ a.count` (descending by count, stable on ties). -/
def byCountDesc (a b : String × Nat) : Prop :=
  b.2 ≤ a.2

instance : DecidableRel byCountDesc := fun a b => Nat.decLe b.2 a.2

instance : IsTotal (String × Nat) byCountDesc :=
  ⟨fun a b => Nat.le_total b.2 a.2⟩

instance : IsTrans (String × Nat) byCountDesc :=
  ⟨fun _ _ _ hab hbc => Nat.le_trans hbc hab⟩

/-- `computeStats` (`Api1.jsx` lines 27–40). -/
def computeStats (historyData : List HistoryEntry) : Stats :=
  if historyData.length == 0 then ⟨0, 0, []⟩
  else
    let total := historyData.length
    let avgDuration :=
      jsRoundDiv (historyData.foldl (fun sum item => sum + item.duration) 0) total
    let methodStats :=
      ((List.insertionSort byCountDesc (methodCounts historyData)).take 3)
    ⟨total, avgDuration, methodStats⟩

/-- The `keys.slice(-100)` window of `loadStats` (`Api1.jsx` line 64):
the last 100 request keys in enumeration order. -/
def recentKeys (store : Store) : List String :=
  let keys := getRequestKeys store
  keys.drop (keys.length - 100)

/-- The record sample `loadStats` hands to `computeStats`
(`Api1.jsx` lines 65–75): parseable records of the recent-key window. -/
def recentSample (parse : String → Option HistoryEntry) (store : Store) :
    List HistoryEntry :=
  ((recentKeys store).map (fun key => (getItem store key).bind parse)).filterMap id

/-- `loadStats` (`Api1.jsx` lines 55–84): computed stats plus the
`totalCount` it sets (the full key count, line 78). -/
def loadStats (parse : String → Option HistoryEntry) (store : Store) :
    Stats × Nat :=
  let keys := getRequestKeys store
  if keys.isEmpty then (⟨0, 0, []⟩, 0)
  else (computeStats (recentSample parse store), keys.length)

/-! ## Page cache and the mutate-then-reload flows (`Api.jsx`) -/

/-- `historyCache.current.set(cacheKey, result)`: JS `Map.set` replaces an
existing key and appends a new one. -/
def cacheSet (cache : List (Nat × PageResult)) (page : Nat)
    (result : PageResult) : List (Nat × PageResult) :=
  match cache with
  | [] => [(page, result)]
  | kv :: rest =>
    if kv.1 == page then (page, result) :: rest
    else kv :: cacheSet rest page result

/-- The component state the history flows touch: the persistent store, the
in-memory page cache, and the `history`/`totalCount`/`hasMore`/`page`
React state. -/
structure UiState where
  store : Store
  cache : List (Nat × PageResult)
  history : List HistoryEntry
  totalCount : Nat
  hasMore : Bool
  page : Nat
  deriving Repr, DecidableEq

/-- `loadHistory(pageNum, append)` as a state transformer
(`Api.jsx` lines 27–87): serve a cached page when present and not
appending; otherwise compute the page from the store, cache it, and
either append to or replace the displayed list. -/
def loadHistoryOp (parse : String → Option HistoryEntry) (s : UiState)
    (pageNum : Nat) (append : Bool) : UiState :=
  match s.cache.find? (fun kv => kv.1 == pageNum), append with
  | some kv, false =>
    { s with history := kv.2.items, totalCount := kv.2.totalCount,
             hasMore := kv.2.hasMore }
  | _, _ =>
    let result := loadHistoryPage (getItem s.store) parse
      (getRequestKeys s.store) pageNum
    { s with
      cache := cacheSet s.cache pageNum result
      history := if append && decide (pageNum > 1)
        then s.history ++ result.items else result.items
      totalCount := result.totalCount
      hasMore := result.hasMore }

/-- `saveToHistory` (`Api.jsx` lines 120–134): write the entry, clear the
whole cache, reset to page 1 and reload page 1. -/
def saveOp (parse : String → Option HistoryEntry) (s : UiState)
    (now : Nat) (serialized : String) : UiState :=
  let afterWrite := { s with store := saveStore s.store now serialized,
                             cache := [], page := 1 }
  loadHistoryOp parse afterWrite 1 false

/-- `deleteHistoryItem` (`Api.jsx` lines 265–277): delete the key, clear
the whole cache, reset to page 1 and reload page 1. -/
def deleteOp (parse : String → Option HistoryEntry) (s : UiState)
    (id : Nat) : UiState :=
  let afterDelete := { s with store := deleteStore s.store id,
                              cache := [], page := 1 }
  loadHistoryOp parse afterDelete 1 false

/-- `clearAllHistory` (`Api.jsx` lines 279–297): delete every prefixed key,
clear the cache and reset all derived state. -/
def clearOp (s : UiState) : UiState :=
  { store := clearAllStore s.store, cache := [], history := [],
    totalCount := 0, hasMore := false, page := 1 }

/-! ## RequestExecutor (`sendRequest`) -/

/-- A thrown JavaScript error, as observed in the `catch` block. -/
structure JsError where
  message : String
  name : String
  deriving Repr, DecidableEq

/-- Outcome of reading the response body once a response object exists. -/
inductive BodyOutcome where
  /-- JSON content type; `response.json()` succeeded and the value was
  re-serialized with 2-space indentation. -/
  | jsonOk (formatted : String)
  /-- JSON content type but `response.json()` threw. -/
  | jsonErr (e : JsError)
  /-- Non-JSON content type; raw `response.text()`. -/
  | text (raw : String)
  deriving Repr, DecidableEq

/-- Outcome of the single `fetch` call: either a response object or a
network-level rejection (no response received). -/
inductive FetchResult where
  | ok (status : Int) (body : BodyOutcome)
  | err (e : JsError)
  deriving Repr, DecidableEq

/-- Environment of one `sendRequest` invocation: the browser primitives it
consults (`JSON.parse` success, `new URL` success, the `fetch` outcome)
and the clock readings. -/
structure SendEnv where
  jsonOk : String → Bool
  urlValid : String → Bool
  fetchResult : FetchResult
  startTime : Nat
  okTime : Nat
  errTime : Nat
  nowMs : Nat

/-- Observable result of one `sendRequest` invocation: how many `fetch`
calls were issued, the displayed response/status/duration, and the
history entries handed to `saveToHistory`. -/
structure SendOutcome where
  fetchCalls : Nat
  response : String
  statusCode : Int
  duration : Nat
  saved : List HistoryEntry
  deriving Repr, DecidableEq

/-- Model of JavaScript `s.trim()`: strip leading and trailing
whitespace. -/
def strTrim (s : String) : String :=
  ⟨((s.toList.dropWhile Char.isWhitespace).reverse.dropWhile
      Char.isWhitespace).reverse⟩

/-- Model of JavaScript `s.includes(sub)`: `sub` occurs at some
position of `s`. -/
def strIncludes (sub s : String) : Bool :=
  (List.range (s.length + 1)).any
    (fun i => (s.toList.drop i).take sub.length == sub.toList)

/-- `JSON.stringify({error, details, type}, null, 2)` — the error payload
built in the `catch` block (`Api.jsx` lines 224–228). -/
def mkErrorResponse (msg nm : String) : String :=
  "\x7b\n  \"error\": \"" ++ msg ++
  "\",\n  \"details\": \"Request failed. Check console for details.\",\n  \"type\": \"" ++
  nm ++ "\"\n\x7d"

/-- Displayed status in the `catch` block of `Api.jsx` (line 231):
`error.message.includes('CORS') ? 0 : 400`. -/
def displayedErrorStatus (e : JsError) : Int :=
  if strIncludes "CORS" e.message then 0 else 400

/-- Displayed status in the `catch` block of `Api1.jsx` (line 271):
also treats `TypeError` as network-level. -/
def displayedErrorStatusA1 (e : JsError) : Int :=
  if strIncludes "CORS" e.message || e.name == "TypeError" then 0 else 400

/-- The methods for which a non-empty body is validated and sent. -/
def bodyMethods : List String := ["POST", "PUT", "PATCH"]

/-- The history entry recorded in the `catch` block (`Api.jsx`
lines 235–244): `statusCode` is hard-coded to `400`. -/
def errorHistoryEntry (env : SendEnv) (method url headers body : String)
    (e : JsError) : HistoryEntry :=
  { id := env.nowMs, method := method, url := url, headers := headers,
    body := body, response := mkErrorResponse e.message e.name,
    statusCode := 400, duration := env.errTime - env.startTime,
    timestamp := env.nowMs }

/-- The whole `catch` block (`Api.jsx` lines 220–245): displayed state plus
the single history entry saved. -/
def catchOutcome (env : SendEnv) (calls : Nat)
    (method url headers body : String) (e : JsError) : SendOutcome :=
  { fetchCalls := calls,
    response := mkErrorResponse e.message e.name,
    statusCode := displayedErrorStatus e,
    duration := env.errTime - env.startTime,
    saved := [errorHistoryEntry env method url headers body e] }

/-- `sendRequest` (`Api.jsx` lines 137–249): validate headers, body (for
body-bearing methods), and URL — any failure throws before `fetch` —
then issue the single `fetch` and classify its outcome. -/
def sendRequest (env : SendEnv) (method url headers body : String) :
    SendOutcome :=
  if !env.jsonOk headers then
    catchOutcome env 0 method url headers body ⟨"Invalid JSON in headers", "Error"⟩
  else if !(strTrim body == "") && bodyMethods.contains method
      && !env.jsonOk body then
    catchOutcome env 0 method url headers body ⟨"Invalid JSON in body", "Error"⟩
  else if strTrim url == "" then
    catchOutcome env 0 method url headers body ⟨"URL is required", "Error"⟩
  else if !env.urlValid url then
    catchOutcome env 0 method url headers body ⟨"Invalid URL format", "Error"⟩
  else
    match env.fetchResult with
    | .err e => catchOutcome env 1 method url headers body e
    | .ok status bodyOutcome =>
      match bodyOutcome with
      | .jsonErr e => catchOutcome env 1 method url headers body e
      | .jsonOk formatted =>
        let entry : HistoryEntry :=
          { id := env.nowMs, method := method, url := url,
            headers := headers, body := body, response := formatted,
            statusCode := status, duration := env.okTime - env.startTime,
            timestamp := env.nowMs }
        { fetchCalls := 1, response := formatted, statusCode := status,
          duration := env.okTime - env.startTime, saved := [entry] }
      | .text raw =>
        let entry : HistoryEntry :=
          { id := env.nowMs, method := method, url := url,
            headers := headers, body := body, response := raw,
            statusCode := status, duration := env.okTime - env.startTime,
            timestamp := env.nowMs }
        { fetchCalls := 1, response := raw, statusCode := status,
          duration := env.okTime - env.startTime, saved := [entry] }

/-- Whether an invocation reaches the `catch` block, i.e. the operation
fails: a validation failure, a network-level rejection, or a body-read
failure after a response was obtained. -/
def reachesCatch (env : SendEnv) (method url headers body : String) : Bool :=
  !env.jsonOk headers
  || (!(strTrim body == "") && bodyMethods.contains method && !env.jsonOk body)
  || strTrim url == ""
  || !env.urlValid url
  || (match env.fetchResult with
      | .err _ => true
      | .ok _ (.jsonErr _) => true
      | .ok _ _ => false)

/-! ## Helper lemmas -/

theorem strHasPrefix_append (p t : String) : strHasPrefix p (p ++ t) = true := by
  have h : (p ++ t).data.take p.length = p.data := by
    have hl : p.length = p.data.length := rfl
    rw [String.data_append, hl, List.take_left]
  simp [strHasPrefix, String.toList, h]

theorem strHasPrefix_requestKey (id : Nat) :
    strHasPrefix "request:" (requestKey id) = true :=
  strHasPrefix_append "request:" (toString id)

theorem foldl_removeItem (ks : List String) (s : Store) :
    ks.foldl (fun acc key => removeItem acc key) s
      = s.filter (fun kv => !(ks.contains kv.1)) := by
  induction ks generalizing s with
  | nil => simp
  | cons k ks ih =>
    simp only [List.foldl_cons]
    rw [ih]
    unfold removeItem
    rw [List.filter_filter]
    apply List.filter_congr
    intro a _
    rw [List.contains_cons, Bool.not_or, Bool.and_comm]

theorem clearAllStore_eq_filter (store : Store) :
    clearAllStore store
      = store.filter (fun kv => !(strHasPrefix "request:" kv.1)) := by
  unfold clearAllStore
  rw [foldl_removeItem]
  apply List.filter_congr
  intro kv hkv
  congr 1
  by_cases h : strHasPrefix "request:" kv.1 = true
  · have hmem : kv.1 ∈ getRequestKeys store := by
      unfold getRequestKeys
      exact List.mem_filter.mpr ⟨List.mem_map.mpr ⟨kv, hkv, rfl⟩, h⟩
    rw [h]
    exact (List.elem_iff).mpr hmem
  · rw [Bool.eq_false_iff.mpr h]
    apply Bool.eq_false_iff.mpr
    intro hcon
    have hmem : kv.1 ∈ getRequestKeys store := (List.elem_iff).mp hcon
    have := (List.mem_filter.mp hmem).2
    exact h this

theorem filter_setItem_of_pred_false (p : String → Bool) (key v : String)
    (hk : p key = false) (s : Store) :
    (setItem s key v).filter (fun kv => p kv.1)
      = s.filter (fun kv => p kv.1) := by
  induction s with
  | nil => simp [setItem, hk]
  | cons kv rest ih =>
    by_cases h : kv.1 == key
    · have heq : kv.1 = key := eq_of_beq h
      simp [setItem, h, List.filter, hk, heq]
    · simp only [setItem, h]
      simp only [Bool.false_eq_true, if_false]
      cases hp : p kv.1 <;> simp [List.filter, hp, ih]

/-! ## C10 — mutations touch only keys with the reserved prefix -/

/-- C10: `clearAllHistory` removes exactly the keys beginning with
`"request:"`, `deleteHistoryItem` removes only the single key
`"request:" + id`, and every stored key not beginning with `"request:"`
is unchanged by save, delete, and clear-all. -/
theorem mutations_touch_only_request_keys (store : Store) (id now : Nat)
    (v : String) :
    clearAllStore store
        = store.filter (fun kv => !(strHasPrefix "request:" kv.1))
    ∧ deleteStore store id
        = store.filter (fun kv => !(kv.1 == requestKey id))
    ∧ (saveStore store now v).filter
          (fun kv => !(strHasPrefix "request:" kv.1))
        = store.filter (fun kv => !(strHasPrefix "request:" kv.1))
    ∧ (deleteStore store id).filter
          (fun kv => !(strHasPrefix "request:" kv.1))
        = store.filter (fun kv => !(strHasPrefix "request:" kv.1))
    ∧ (clearAllStore store).filter
          (fun kv => !(strHasPrefix "request:" kv.1))
        = store.filter (fun kv => !(strHasPrefix "request:" kv.1)) := by
  refine ⟨clearAllStore_eq_filter store, rfl, ?_, ?_, ?_⟩
  · exact filter_setItem_of_pred_false
      (fun k => !(strHasPrefix "request:" k)) (requestKey now) v
      (by simp [strHasPrefix_requestKey now]) store
  · unfold deleteStore removeItem
    rw [List.filter_filter]
    apply List.filter_congr
    intro a _
    cases hb : a.1 == requestKey id
    · simp [hb]
    · have ha : a.1 = requestKey id := eq_of_beq hb
      simp [ha, strHasPrefix_requestKey]
  · rw [clearAllStore_eq_filter, List.filter_filter]
    simp

/-! ## C3 — `hasMore` iff `pageNumber * pageSize < totalCount` -/

/-- C3: for every page load with page number `p ≥ 1`, the returned
`hasMore` flag is true iff `p * 20 < totalCount`, where `totalCount` is
the number of successfully parsed records (both the `window.storage`
variant and the `localStorage` variant). -/
theorem hasMore_iff_page_times_size_lt_total
    (get : String → Option String) (parse : String → Option HistoryEntry)
    (keys : List String) (store : Store) (p : Nat) (hp : 1 ≤ p) :
    ((loadHistoryPage get parse keys p).hasMore = true
      ↔ p * ITEMS_PER_PAGE < (loadHistoryPage get parse keys p).totalCount)
    ∧ ((loadHistoryLS parse store p).hasMore = true
      ↔ p * ITEMS_PER_PAGE < (loadHistoryLS parse store p).totalCount) := by
  constructor
  · simp only [loadHistoryPage, ITEMS_PER_PAGE, decide_eq_true_eq]
    omega
  · unfold loadHistoryLS
    cases hks : getRequestKeys store with
    | nil => simp
    | cons k ks =>
      simp only [List.isEmpty_cons, Bool.false_eq_true, if_false,
        loadHistoryPage, ITEMS_PER_PAGE, decide_eq_true_eq]
      omega

/-- Closed instance of `hasMore_iff_page_times_size_lt_total` at `p = 1`
over the empty store. -/
theorem hasMore_iff_witness :
    1 ≤ 1
    ∧ (((loadHistoryPage (fun _ => none) (fun _ => none) [] 1).hasMore = true
        ↔ 1 * ITEMS_PER_PAGE
            < (loadHistoryPage (fun _ => none) (fun _ => none) [] 1).totalCount)
      ∧ ((loadHistoryLS (fun _ => none) ([] : Store) 1).hasMore = true
        ↔ 1 * ITEMS_PER_PAGE
            < (loadHistoryLS (fun _ => none) ([] : Store) 1).totalCount)) :=
  ⟨by decide,
    hasMore_iff_page_times_size_lt_total (fun _ => none) (fun _ => none) [] []
      1 (by decide)⟩

/-! ## C1 — page 1 is sorted by timestamp descending, newest first -/

theorem sortedEntries_pairwise (get : String → Option String)
    (parse : String → Option HistoryEntry) (keys : List String) :
    (sortedEntries get parse keys).Pairwise
      (fun a b => b.timestamp ≤ a.timestamp) :=
  List.sorted_insertionSort byTimestampDesc
    ((keys.map (fun key => (get key).bind parse)).filterMap id)

/-- C1: loading page 1 returns the successfully parsed entries in
`timestamp`-descending order, newest first: the result is
pairwise-descending and is exactly the first (up to) 20 entries of the
full sorted list.  Proved for the `window.storage` variant and the
`localStorage` variant. -/
theorem loadPage_one_sorted_desc (get : String → Option String)
    (parse : String → Option HistoryEntry) (keys : List String)
    (store : Store) :
    ((loadHistoryPage get parse keys 1).items).Pairwise
        (fun a b => b.timestamp ≤ a.timestamp)
    ∧ (loadHistoryPage get parse keys 1).items
        = (sortedEntries get parse keys).take ITEMS_PER_PAGE
    ∧ ((loadHistoryLS parse store 1).items).Pairwise
        (fun a b => b.timestamp ≤ a.timestamp)
    ∧ (loadHistoryLS parse store 1).items
        = (sortedEntries (getItem store) parse
            (getRequestKeys store)).take ITEMS_PER_PAGE := by
  have hitems : ∀ (g : String → Option String) (ks : List String),
      (loadHistoryPage g parse ks 1).items
        = (sortedEntries g parse ks).take ITEMS_PER_PAGE := by
    intro g ks
    simp [loadHistoryPage]
  have hpair : ∀ (g : String → Option String) (ks : List String),
      ((loadHistoryPage g parse ks 1).items).Pairwise
        (fun a b => b.timestamp ≤ a.timestamp) := by
    intro g ks
    rw [hitems]
    exact List.Pairwise.sublist (List.take_sublist _ _)
      (sortedEntries_pairwise g parse ks)
  refine ⟨hpair get keys, hitems get keys, ?_, ?_⟩
  · unfold loadHistoryLS
    cases hks : getRequestKeys store with
    | nil => simp
    | cons k ks =>
      simp only [List.isEmpty_cons, Bool.false_eq_true, if_false]
      exact hpair (getItem store) (k :: ks)
  · unfold loadHistoryLS
    cases hks : getRequestKeys store with
    | nil => simp [sortedEntries]
    | cons k ks =>
      simp only [List.isEmpty_cons, Bool.false_eq_true, if_false]
      exact hitems (getItem store) (k :: ks)

/-! ## C2 — pagination is exhaustive and non-overlapping -/

/-- The number of pages needed to cover `total` entries at 20 per page. -/
def numPages (total : Nat) : Nat :=
  (total + ITEMS_PER_PAGE - 1) / ITEMS_PER_PAGE

theorem flatMap_pages_take (l : List HistoryEntry) (k : Nat) :
    (List.range k).flatMap
        (fun i => (l.drop (i * ITEMS_PER_PAGE)).take ITEMS_PER_PAGE)
      = l.take (k * ITEMS_PER_PAGE) := by
  induction k with
  | zero => simp
  | succ k ih =>
    rw [List.range_succ, List.flatMap_append, ih, Nat.succ_mul,
      List.take_add]
    simp

theorem pages_partition_aux (get : String → Option String)
    (parse : String → Option HistoryEntry) (keys : List String) :
    (List.range (numPages (sortedEntries get parse keys).length)).flatMap
        (fun i => (loadHistoryPage get parse keys (i + 1)).items)
      = sortedEntries get parse keys := by
  have hitems : ∀ i, (loadHistoryPage get parse keys (i + 1)).items
      = ((sortedEntries get parse keys).drop
          (i * ITEMS_PER_PAGE)).take ITEMS_PER_PAGE := by
    intro i
    simp [loadHistoryPage]
  simp only [hitems]
  rw [flatMap_pages_take]
  apply List.take_of_length_le
  unfold numPages ITEMS_PER_PAGE
  omega

/-- C2: for page size 20, page `p` is the slice of the sorted entry list
from `(p-1)*20` to `(p-1)*20+20`, and concatenating all pages in order
reproduces the full sorted list exactly — so the pages are exhaustive
and non-overlapping.  Proved for both variants. -/
theorem pages_partition (get : String → Option String)
    (parse : String → Option HistoryEntry) (keys : List String)
    (store : Store) (p : Nat) :
    (loadHistoryPage get parse keys p).items
        = ((sortedEntries get parse keys).drop
            ((p - 1) * ITEMS_PER_PAGE)).take ITEMS_PER_PAGE
    ∧ (List.range (numPages (sortedEntries get parse keys).length)).flatMap
          (fun i => (loadHistoryPage get parse keys (i + 1)).items)
        = sortedEntries get parse keys
    ∧ (List.range (numPages (sortedEntries (getItem store) parse
            (getRequestKeys store)).length)).flatMap
          (fun i => (loadHistoryLS parse store (i + 1)).items)
        = sortedEntries (getItem store) parse (getRequestKeys store) := by
  refine ⟨rfl, pages_partition_aux get parse keys, ?_⟩
  unfold loadHistoryLS
  cases hks : getRequestKeys store with
  | nil => simp [sortedEntries]
  | cons k ks =>
    simp only [List.isEmpty_cons, Bool.false_eq_true, if_false]
    exact pages_partition_aux (getItem store) parse (k :: ks)

/-! ## C6 — corrupt or absent records are silently excluded -/

/-- C6: a record whose value is absent or fails to parse contributes
nothing: inserting such a key anywhere in the key list leaves every page
load unchanged, so one corrupt record never aborts the page load of the
remaining parseable records. -/
theorem corrupt_record_excluded (get : String → Option String)
    (parse : String → Option HistoryEntry) (keys₁ keys₂ : List String)
    (k : String) (p : Nat) (hk : (get k).bind parse = none) :
    loadHistoryPage get parse (keys₁ ++ k :: keys₂) p
      = loadHistoryPage get parse (keys₁ ++ keys₂) p := by
  have hsorted : sortedEntries get parse (keys₁ ++ k :: keys₂)
      = sortedEntries get parse (keys₁ ++ keys₂) := by
    unfold sortedEntries
    simp [hk]
  simp [loadHistoryPage, hsorted]

/-- Concrete store for the C6 witness: key `request:1` holds a parseable
value, key `request:2` holds a corrupt one. -/
def corruptWitnessGet : String → Option String := fun key =>
  if key == "request:1" then some "v"
  else if key == "request:2" then some "bad" else none

/-- Parse oracle for the C6 witness: only the value `"v"` parses. -/
def corruptWitnessParse : String → Option HistoryEntry := fun s =>
  if s == "v" then
    some ⟨1, "GET", "https://example.test/ok", "\x7b\x7d", "", "ok", 200, 100, 5⟩
  else none

/-- Closed instance of `corrupt_record_excluded`: dropping the corrupt
record `request:2` does not change page 1. -/
theorem corrupt_record_excluded_witness :
    (corruptWitnessGet "request:2").bind corruptWitnessParse = none
    ∧ loadHistoryPage corruptWitnessGet corruptWitnessParse
          (["request:1"] ++ "request:2" :: []) 1
        = loadHistoryPage corruptWitnessGet corruptWitnessParse
          (["request:1"] ++ []) 1 :=
  ⟨by decide,
    corrupt_record_excluded corruptWitnessGet corruptWitnessParse
      ["request:1"] [] "request:2" 1 (by decide)⟩

/-! ## C8 — statistics are computed over a bounded recent sample -/

/-- C8: `loadStats` hands the aggregator only the records of the last (at
most) 100 request keys in key order — never the full history — while the
`totalCount` it reports stays the full key count. -/
theorem loadStats_bounded_sample (parse : String → Option HistoryEntry)
    (store : Store) :
    (loadStats parse store).1 = computeStats (recentSample parse store)
    ∧ recentKeys store
        = (getRequestKeys store).drop ((getRequestKeys store).length - 100)
    ∧ (recentKeys store).length = min (getRequestKeys store).length 100
    ∧ (recentSample parse store).length ≤ 100
    ∧ (loadStats parse store).2 = (getRequestKeys store).length := by
  have hlen : (recentKeys store).length = min (getRequestKeys store).length 100 := by
    simp only [recentKeys, List.length_drop]
    omega
  have hsample : (recentSample parse store).length ≤ 100 := by
    calc (recentSample parse store).length
        ≤ ((recentKeys store).map
            (fun key => (getItem store key).bind parse)).length :=
          List.length_filterMap_le id _
      _ = (recentKeys store).length := List.length_map _ _
      _ ≤ 100 := by omega
  refine ⟨?_, rfl, hlen, hsample, ?_⟩
  · unfold loadStats
    cases hks : getRequestKeys store with
    | nil =>
      simp only [List.isEmpty_nil, if_true]
      have : recentSample parse store = [] := by
        simp [recentSample, recentKeys, hks]
      rw [this]
      rfl
    | cons k ks => simp
  · unfold loadStats
    cases hks : getRequestKeys store with
    | nil => simp [hks]
    | cons k ks => simp

/-! ## C9 — every mutation clears the page cache before reloading -/

/-- C9: saving, deleting and clearing all each clear the whole page cache
before issuing their reload: the result of each mutation is independent
of the pre-mutation cache, the displayed history is recomputed fresh
from the mutated store, and the post-mutation cache holds only that
freshly computed page. -/
theorem mutation_invalidates_cache (parse : String → Option HistoryEntry)
    (s : UiState) (now id : Nat) (serialized : String) :
    saveOp parse s now serialized
        = saveOp parse { s with cache := [] } now serialized
    ∧ deleteOp parse s id = deleteOp parse { s with cache := [] } id
    ∧ clearOp s = clearOp { s with cache := [] }
    ∧ (saveOp parse s now serialized).history
        = (loadHistoryPage (getItem (saveStore s.store now serialized)) parse
            (getRequestKeys (saveStore s.store now serialized)) 1).items
    ∧ (saveOp parse s now serialized).cache
        = [(1, loadHistoryPage (getItem (saveStore s.store now serialized))
            parse (getRequestKeys (saveStore s.store now serialized)) 1)]
    ∧ (deleteOp parse s id).history
        = (loadHistoryPage (getItem (deleteStore s.store id)) parse
            (getRequestKeys (deleteStore s.store id)) 1).items
    ∧ (deleteOp parse s id).cache
        = [(1, loadHistoryPage (getItem (deleteStore s.store id)) parse
            (getRequestKeys (deleteStore s.store id)) 1)]
    ∧ (clearOp s).cache = [] ∧ (clearOp s).history = [] :=
  ⟨rfl, rfl, rfl, rfl, rfl, rfl, rfl, rfl, rfl⟩

/-! ## C7 — StatsAggregator helper lemmas -/

/-- The count recorded for method `m` in a method-count accumulator
(`0` when absent). -/
def ctOf (acc : List (String × Nat)) (m : String) : Nat :=
  ((acc.find? (fun kv => kv.1 == m)).map Prod.snd).getD 0

theorem bumpMethod_fst (acc : List (String × Nat)) (m : String) :
    (bumpMethod acc m).map Prod.fst
      = if m ∈ acc.map Prod.fst then acc.map Prod.fst
        else acc.map Prod.fst ++ [m] := by
  induction acc with
  | nil => simp [bumpMethod]
  | cons kv rest ih =>
    by_cases h : kv.1 == m
    · have heq : kv.1 = m := eq_of_beq h
      simp [bumpMethod, h, heq]
    · have hne : ¬(kv.1 = m) := by
        intro heq
        exact h (beq_iff_eq.mpr heq)
      have hne' : m ≠ kv.1 := Ne.symm hne
      simp only [bumpMethod, h, Bool.false_eq_true, if_false, List.map_cons,
        ih, List.mem_cons]
      by_cases hm : m ∈ rest.map Prod.fst
      · simp [hm, hne']
      · simp [hm, hne']

theorem bumpMethod_nodup (acc : List (String × Nat)) (m : String)
    (h : (acc.map Prod.fst).Nodup) :
    ((bumpMethod acc m).map Prod.fst).Nodup := by
  rw [bumpMethod_fst]
  by_cases hm : m ∈ acc.map Prod.fst
  · rw [if_pos hm]
    exact h
  · rw [if_neg hm, List.nodup_append]
    refine ⟨h, List.nodup_singleton m, fun a ha hb => ?_⟩
    rw [List.mem_singleton] at hb
    subst hb
    exact hm ha

theorem ctOf_bumpMethod_self (acc : List (String × Nat)) (m : String) :
    ctOf (bumpMethod acc m) m = ctOf acc m + 1 := by
  induction acc with
  | nil => simp [bumpMethod, ctOf, List.find?]
  | cons kv rest ih =>
    by_cases h : kv.1 == m
    · simp [bumpMethod, h, ctOf, List.find?]
    · simp only [bumpMethod, h, Bool.false_eq_true, if_false]
      simpa [ctOf, List.find?, h] using ih

theorem ctOf_bumpMethod_other (acc : List (String × Nat)) (m m' : String)
    (h : m' ≠ m) : ctOf (bumpMethod acc m) m' = ctOf acc m' := by
  have hmm : (m == m') = false :=
    beq_eq_false_iff_ne.mpr (fun hx => h hx.symm)
  induction acc with
  | nil => simp [bumpMethod, ctOf, List.find?, hmm]
  | cons kv rest ih =>
    by_cases hk : kv.1 == m
    · have heq : kv.1 = m := eq_of_beq hk
      simp [bumpMethod, hk, ctOf, List.find?, hmm, heq]
    · simp only [bumpMethod, hk, Bool.false_eq_true, if_false]
      by_cases hk' : kv.1 == m'
      · simp [ctOf, List.find?, hk']
      · simpa [ctOf, List.find?, hk'] using ih

theorem bumpMethod_mem_fst (acc : List (String × Nat)) (m m' : String) :
    m' ∈ (bumpMethod acc m).map Prod.fst
      ↔ m' ∈ acc.map Prod.fst ∨ m' = m := by
  rw [bumpMethod_fst]
  by_cases hm : m ∈ acc.map Prod.fst
  · simp only [hm, if_true]
    constructor
    · exact Or.inl
    · rintro (h | rfl)
      · exact h
      · exact hm
  · simp [hm]

theorem find?_eq_of_mem_of_nodup :
    ∀ (acc : List (String × Nat)) (mc : String × Nat),
      (acc.map Prod.fst).Nodup → mc ∈ acc →
      acc.find? (fun kv => kv.1 == mc.1) = some mc := by
  intro acc
  induction acc with
  | nil => intro mc _ h; cases h
  | cons kv rest ih =>
    intro mc hnd hmem
    rcases List.mem_cons.mp hmem with rfl | hmem'
    · simp [List.find?]
    · have hne : kv.1 ≠ mc.1 := by
        intro heq
        have : mc.1 ∈ rest.map Prod.fst := List.mem_map.mpr ⟨mc, hmem', rfl⟩
        rw [← heq] at this
        exact (List.nodup_cons.mp (by simpa using hnd)).1 this
      have hb : ¬(kv.1 == mc.1) := fun hb => hne (eq_of_beq hb)
      simp only [List.find?, hb]
      exact ih mc (List.nodup_cons.mp (by simpa using hnd)).2 hmem'

theorem ctOf_eq_of_mem (acc : List (String × Nat)) (mc : String × Nat)
    (hnd : (acc.map Prod.fst).Nodup) (hmem : mc ∈ acc) :
    ctOf acc mc.1 = mc.2 := by
  unfold ctOf
  rw [find?_eq_of_mem_of_nodup acc mc hnd hmem]
  rfl

theorem methodCounts_invariant (l : List HistoryEntry) :
    ∀ acc : List (String × Nat), (acc.map Prod.fst).Nodup →
      ((l.foldl (fun a e => bumpMethod a e.method) acc).map Prod.fst).Nodup
      ∧ (∀ m, ctOf (l.foldl (fun a e => bumpMethod a e.method) acc) m
            = ctOf acc m + l.countP (fun e => e.method == m))
      ∧ (∀ m, m ∈ (l.foldl (fun a e => bumpMethod a e.method) acc).map Prod.fst
            ↔ m ∈ acc.map Prod.fst ∨ ∃ e ∈ l, e.method = m) := by
  induction l with
  | nil =>
    intro acc hnd
    exact ⟨hnd, fun m => by simp, fun m => by simp⟩
  | cons e l ih =>
    intro acc hnd
    have hnd' := bumpMethod_nodup acc e.method hnd
    obtain ⟨h1, h2, h3⟩ := ih (bumpMethod acc e.method) hnd'
    refine ⟨h1, ?_, ?_⟩
    · intro m
      rw [List.foldl_cons, h2 m, List.countP_cons]
      by_cases hm : e.method == m
      · have heq : e.method = m := eq_of_beq hm
        rw [heq, ctOf_bumpMethod_self]
        simp [hm]
        omega
      · have hne : m ≠ e.method := fun hx =>
          hm (beq_iff_eq.mpr hx.symm)
        rw [ctOf_bumpMethod_other acc e.method m hne]
        simp [hm]
    · intro m
      rw [List.foldl_cons, h3 m, bumpMethod_mem_fst]
      constructor
      · rintro (⟨hin | rfl⟩ | ⟨x, hx, hxm⟩)
        · exact Or.inl hin
        · exact Or.inr ⟨e, List.mem_cons_self e l, rfl⟩
        · exact Or.inr ⟨x, List.mem_cons_of_mem e hx, hxm⟩
      · rintro (hin | ⟨x, hx, hxm⟩)
        · exact Or.inl (Or.inl hin)
        · rcases List.mem_cons.mp hx with rfl | hx'
          · exact Or.inl (Or.inr hxm.symm)
          · exact Or.inr ⟨x, hx', hxm⟩

theorem methodCounts_nodup (l : List HistoryEntry) :
    ((methodCounts l).map Prod.fst).Nodup :=
  (methodCounts_invariant l [] (by simp)).1

theorem methodCounts_count (l : List HistoryEntry) (mc : String × Nat)
    (hmem : mc ∈ methodCounts l) :
    mc.2 = l.countP (fun e => e.method == mc.1) := by
  have h := (methodCounts_invariant l [] (by simp)).2.1 mc.1
  have hct := ctOf_eq_of_mem (methodCounts l) mc (methodCounts_nodup l) hmem
  have h0 : ctOf ([] : List (String × Nat)) mc.1 = 0 := rfl
  rw [← hct]
  rw [methodCounts] at *
  omega

theorem methodCounts_mem (l : List HistoryEntry) (m : String) :
    m ∈ (methodCounts l).map Prod.fst ↔ ∃ e ∈ l, e.method = m := by
  have h := (methodCounts_invariant l [] (by simp)).2.2 m
  simpa [methodCounts] using h

theorem foldl_duration_sum (l : List HistoryEntry) :
    ∀ n : Nat, l.foldl (fun sum item => sum + item.duration) n
      = n + (l.map (fun e => e.duration)).sum := by
  induction l with
  | nil => intro n; simp
  | cons e l ih =>
    intro n
    rw [List.foldl_cons, ih, List.map_cons, List.sum_cons]
    omega


/-- C7: `computeStats` returns `{total: 0, avgDuration: 0, methodStats: []}`
on the empty list; on any list it returns `total` equal to the length,
`avgDuration` equal to the rounded arithmetic mean of the durations, and
`methodStats` equal to the top-3 `(method, count)` pairs sorted by count
descending: at most 3 pairwise count-descending pairs with distinct
methods, each carrying its method's exact occurrence count, such that
every method left out has a count no larger than any listed one. -/
theorem computeStats_spec (l : List HistoryEntry) :
    computeStats [] = ⟨0, 0, []⟩
    ∧ (computeStats l).total = l.length
    ∧ (computeStats l).avgDuration
        = jsRoundDiv ((l.map (fun e => e.duration)).sum) l.length
    ∧ (computeStats l).methodStats.length ≤ 3
    ∧ (computeStats l).methodStats.Pairwise (fun a b => b.2 ≤ a.2)
    ∧ ((computeStats l).methodStats.map Prod.fst).Nodup
    ∧ (∀ mc ∈ (computeStats l).methodStats,
        mc.2 = l.countP (fun e => e.method == mc.1)
        ∧ ∃ e ∈ l, e.method = mc.1)
    ∧ (∀ m, (∃ e ∈ l, e.method = m)
        → m ∉ (computeStats l).methodStats.map Prod.fst
        → ∀ mc ∈ (computeStats l).methodStats,
            l.countP (fun e => e.method == m) ≤ mc.2) := by
  cases l with
  | nil =>
    refine ⟨rfl, rfl, rfl, by decide, by simp [computeStats],
      by simp [computeStats], by simp [computeStats], ?_⟩
    rintro m ⟨x, hx, -⟩ - mc hmc
    cases hx
  | cons e t =>
    have hms : (computeStats (e :: t)).methodStats
        = (List.insertionSort byCountDesc (methodCounts (e :: t))).take 3 := by
      simp [computeStats]
    have hps : (List.insertionSort byCountDesc
        (methodCounts (e :: t))).Pairwise (fun a b => b.2 ≤ a.2) :=
      List.sorted_insertionSort byCountDesc (methodCounts (e :: t))
    have hperm : List.Perm
        (List.insertionSort byCountDesc (methodCounts (e :: t)))
        (methodCounts (e :: t)) := List.perm_insertionSort _ _
    refine ⟨rfl, by simp [computeStats], ?_, ?_, ?_, ?_, ?_, ?_⟩
    · simp [computeStats, foldl_duration_sum]
    · rw [hms]
      exact List.length_take_le 3 _
    · rw [hms]
      exact List.Pairwise.sublist (List.take_sublist _ _) hps
    · rw [hms, List.map_take]
      exact List.Nodup.sublist (List.take_sublist _ _)
        ((hperm.map Prod.fst).nodup_iff.mpr (methodCounts_nodup _))
    · intro mc hmc
      rw [hms] at hmc
      have hin : mc ∈ methodCounts (e :: t) :=
        hperm.subset ((List.take_sublist _ _).subset hmc)
      refine ⟨methodCounts_count _ mc hin, ?_⟩
      exact (methodCounts_mem (e :: t) mc.1).mp
        (List.mem_map_of_mem Prod.fst hin)
    · intro m hocc hnot mc hmc
      rw [hms] at hnot hmc
      have hkey : m ∈ (methodCounts (e :: t)).map Prod.fst :=
        (methodCounts_mem (e :: t) m).mpr hocc
      obtain ⟨mc', hmc', hfst⟩ := List.mem_map.mp hkey
      have hcount : mc'.2 = (e :: t).countP (fun x => x.method == mc'.1) :=
        methodCounts_count _ mc' hmc'
      have hins : mc' ∈ List.insertionSort byCountDesc
          (methodCounts (e :: t)) := hperm.mem_iff.mpr hmc'
      rw [← List.take_append_drop 3
        (List.insertionSort byCountDesc (methodCounts (e :: t)))] at hins
      rcases List.mem_append.mp hins with htake | hdrop
      · exact absurd (hfst ▸ List.mem_map_of_mem Prod.fst htake) hnot
      · have hp2 := hps
        rw [← List.take_append_drop 3
          (List.insertionSort byCountDesc (methodCounts (e :: t)))] at hp2
        have hrel := (List.pairwise_append.mp hp2).2.2 mc hmc mc' hdrop
        rw [hfst] at hcount
        omega

/-- Entries for the C7 witness: durations 100, 200, 300. -/
def wListA : List HistoryEntry :=
  [⟨1, "GET", "u", "h", "", "r", 200, 100, 1⟩,
   ⟨2, "POST", "u", "h", "", "r", 200, 200, 2⟩,
   ⟨3, "GET", "u", "h", "", "r", 200, 300, 3⟩]

/-- Entries for the C7 witness: four distinct methods, so one method
falls outside the top 3. -/
def wListB : List HistoryEntry :=
  [⟨1, "GET", "u", "h", "", "r", 200, 10, 1⟩,
   ⟨2, "GET", "u", "h", "", "r", 200, 10, 2⟩,
   ⟨3, "POST", "u", "h", "", "r", 200, 10, 3⟩,
   ⟨4, "PUT", "u", "h", "", "r", 200, 10, 4⟩,
   ⟨5, "DELETE", "u", "h", "", "r", 200, 10, 5⟩]

/-- Closed instance of `computeStats_spec`: durations [100, 200, 300]
give `avgDuration = 200`, and the method dropped from the top 3 has a
count no larger than a listed one. -/
theorem computeStats_spec_witness :
    ((computeStats wListA).avgDuration
        = jsRoundDiv ((wListA.map (fun e => e.duration)).sum) wListA.length
      ∧ (computeStats wListA).avgDuration = 200)
    ∧ wListB.countP (fun e => e.method == "DELETE") ≤ ("GET", 2).2 :=
  ⟨⟨(computeStats_spec wListA).2.2.1, by decide⟩,
   (computeStats_spec wListB).2.2.2.2.2.2.2 "DELETE"
     (by decide) (by decide) ("GET", 2) (by decide)⟩

/-! ## C5 — validation failures short-circuit -/

/-- C5: when the headers text fails to parse as JSON, `sendRequest` makes
no network call and records exactly one history entry, with
`statusCode = 400` and the elapsed duration up to the failure. -/
def validationError (env : SendEnv) (method url headers body : String) :
    Option JsError :=
  if !env.jsonOk headers then some ⟨"Invalid JSON in headers", "Error"⟩
  else if !(strTrim body == "") && bodyMethods.contains method
      && !env.jsonOk body then some ⟨"Invalid JSON in body", "Error"⟩
  else if strTrim url == "" then some ⟨"URL is required", "Error"⟩
  else if !env.urlValid url then some ⟨"Invalid URL format", "Error"⟩
  else none

/-- C5: every validation failure — invalid headers JSON, invalid body
JSON, missing URL, or invalid URL format — short-circuits: no `fetch`
call is made, and exactly one history entry is recorded, with
`statusCode = 400` and the elapsed duration up to the failure. -/
theorem validation_failure_short_circuits (env : SendEnv)
    (method url headers body : String) (e : JsError)
    (h : validationError env method url headers body = some e) :
    (sendRequest env method url headers body).fetchCalls = 0
    ∧ (sendRequest env method url headers body).saved
        = [errorHistoryEntry env method url headers body e]
    ∧ ((sendRequest env method url headers body).saved.map
        (fun entry => entry.statusCode)) = [400]
    ∧ (sendRequest env method url headers body).duration
        = env.errTime - env.startTime := by
  unfold validationError at h
  unfold sendRequest
  split_ifs at h ⊢ with h1 h2 h3 h4
  · cases h
    exact ⟨rfl, rfl, by simp [catchOutcome, errorHistoryEntry], rfl⟩
  · cases h
    exact ⟨rfl, rfl, by simp [catchOutcome, errorHistoryEntry], rfl⟩
  · cases h
    exact ⟨rfl, rfl, by simp [catchOutcome, errorHistoryEntry], rfl⟩
  · cases h
    exact ⟨rfl, rfl, by simp [catchOutcome, errorHistoryEntry], rfl⟩

/-- Environment for the C5 witness, first mode: `JSON.parse` fails
exactly on the spec scenario's headers text `"{bad json"`. -/
def wEnvC5 : SendEnv :=
  { jsonOk := fun s => !(s == "\x7bbad json"),
    urlValid := fun _ => true,
    fetchResult := .ok 200 (.jsonOk "\x7b\n  \"a\": 1\n\x7d"),
    startTime := 0, okTime := 10, errTime := 7, nowMs := 99 }

/-- Environment for the C5 witness, second mode: `new URL` rejects every
URL, so validation fails with `"Invalid URL format"`. -/
def wEnvC5b : SendEnv :=
  { jsonOk := fun _ => true,
    urlValid := fun _ => false,
    fetchResult := .ok 200 (.jsonOk "\x7b\n  \"a\": 1\n\x7d"),
    startTime := 0, okTime := 10, errTime := 7, nowMs := 99 }

/-- Closed instance of `validation_failure_short_circuits`, exercising
two validation-failure modes: the spec scenario's headers `"{bad json"`,
and an invalid URL. -/
theorem validation_failure_short_circuits_witness :
    validationError wEnvC5 "GET" "https://example.test/ok" "\x7bbad json" ""
        = some ⟨"Invalid JSON in headers", "Error"⟩
    ∧ (sendRequest wEnvC5 "GET" "https://example.test/ok" "\x7bbad json"
        "").fetchCalls = 0
    ∧ ((sendRequest wEnvC5 "GET" "https://example.test/ok" "\x7bbad json"
        "").saved.map (fun entry => entry.statusCode)) = [400]
    ∧ validationError wEnvC5b "GET" "not a url" "\x7b\x7d" ""
        = some ⟨"Invalid URL format", "Error"⟩
    ∧ (sendRequest wEnvC5b "GET" "not a url" "\x7b\x7d" "").fetchCalls = 0 :=
  ⟨by decide,
   (validation_failure_short_circuits wEnvC5 "GET" "https://example.test/ok"
      "\x7bbad json" "" ⟨"Invalid JSON in headers", "Error"⟩ (by decide)).1,
   (validation_failure_short_circuits wEnvC5 "GET" "https://example.test/ok"
      "\x7bbad json" "" ⟨"Invalid JSON in headers", "Error"⟩ (by decide)).2.2.1,
   by decide,
   (validation_failure_short_circuits wEnvC5b "GET" "not a url" "\x7b\x7d"
      "" ⟨"Invalid URL format", "Error"⟩ (by decide)).1⟩

/-! ## C4 — how failures are recorded -/

/-- The error object the `catch` block of `sendRequest` receives, `none`
when the invocation succeeds (parallel to the branch structure of
`sendRequest`). -/
def caughtError (env : SendEnv) (method url headers body : String) :
    Option JsError :=
  if !env.jsonOk headers then some ⟨"Invalid JSON in headers", "Error"⟩
  else if !(strTrim body == "") && bodyMethods.contains method
      && !env.jsonOk body then some ⟨"Invalid JSON in body", "Error"⟩
  else if strTrim url == "" then some ⟨"URL is required", "Error"⟩
  else if !env.urlValid url then some ⟨"Invalid URL format", "Error"⟩
  else
    match env.fetchResult with
    | .err e => some e
    | .ok _ (.jsonErr e) => some e
    | .ok _ _ => none

/-- Environment for the C4 counterexample: validation passes and the
single `fetch` rejects with a network-level `TypeError` — no response
is ever received. -/
def wEnvC4 : SendEnv :=
  { jsonOk := fun _ => true, urlValid := fun _ => true,
    fetchResult := .err ⟨"Failed to fetch", "TypeError"⟩,
    startTime := 0, okTime := 10, errTime := 8, nowMs := 99 }

/-- C4 counterexample: a network-level failure (the `fetch` call rejects,
so no response is received) is recorded in history with
`statusCode = 400`, not the claimed `0`; the `0` appears only in the
displayed status. -/
theorem network_failure_recorded_as_400_not_0 :
    wEnvC4.fetchResult = .err ⟨"Failed to fetch", "TypeError"⟩
    ∧ ((sendRequest wEnvC4 "GET" "https://example.test/ok" "\x7b\x7d"
        "").saved.map (fun entry => entry.statusCode)) = [400]
    ∧ ¬(((sendRequest wEnvC4 "GET" "https://example.test/ok" "\x7b\x7d"
        "").saved.map (fun entry => entry.statusCode)) = [0]) := by
  refine ⟨rfl, by decide, by decide⟩

/-- C4 (amended): every failed invocation — network-level or after a
response was obtained — records its single history entry with
`statusCode = 400`; the sentinel `0` is used only for the displayed
status, when the error message contains `'CORS'` (`Api.jsx`; `Api1.jsx`
additionally treats `TypeError` as network-level). -/
theorem failure_recorded_as_400 (env : SendEnv)
    (method url headers body : String) (e : JsError)
    (h : caughtError env method url headers body = some e) :
    (sendRequest env method url headers body).saved
        = [errorHistoryEntry env method url headers body e]
    ∧ ((sendRequest env method url headers body).saved.map
        (fun entry => entry.statusCode)) = [400]
    ∧ (sendRequest env method url headers body).statusCode
        = displayedErrorStatus e := by
  unfold caughtError at h
  unfold sendRequest
  split_ifs at h ⊢ with h1 h2 h3 h4
  · cases h
    exact ⟨rfl, by simp [catchOutcome, errorHistoryEntry], rfl⟩
  · cases h
    exact ⟨rfl, by simp [catchOutcome, errorHistoryEntry], rfl⟩
  · cases h
    exact ⟨rfl, by simp [catchOutcome, errorHistoryEntry], rfl⟩
  · cases h
    exact ⟨rfl, by simp [catchOutcome, errorHistoryEntry], rfl⟩
  · cases hf : env.fetchResult with
    | err e' =>
      rw [hf] at h
      cases h
      exact ⟨rfl, by simp [catchOutcome, errorHistoryEntry], rfl⟩
    | ok status bodyOutcome =>
      cases bodyOutcome with
      | jsonErr e' =>
        rw [hf] at h
        cases h
        exact ⟨rfl, by simp [catchOutcome, errorHistoryEntry], rfl⟩
      | jsonOk formatted =>
        rw [hf] at h
        cases h
      | text raw =>
        rw [hf] at h
        cases h

/-- Closed instance of `failure_recorded_as_400` at the network failure
of the C4 counterexample. -/
theorem failure_recorded_as_400_witness :
    caughtError wEnvC4 "GET" "https://example.test/ok" "\x7b\x7d" ""
        = some ⟨"Failed to fetch", "TypeError"⟩
    ∧ ((sendRequest wEnvC4 "GET" "https://example.test/ok" "\x7b\x7d"
        "").saved.map (fun entry => entry.statusCode)) = [400] :=
  ⟨by decide,
   (failure_recorded_as_400 wEnvC4 "GET" "https://example.test/ok" "\x7b\x7d"
      "" ⟨"Failed to fetch", "TypeError"⟩ (by decide)).2.1⟩

end RestClient
